import Mathlib

/-!
Verification of the InsarToolkit repository's geographic affine-transform
utilities (`MetaFormatting/InsarFormatting.py`) and the image statistics /
display-range pipeline (`MapShow.py`), shallowly embedded over exact
rational arithmetic.
-/

namespace Insar

/-- A GDAL 6-parameter geo transform tuple `(c0, c1, c2, c3, c4, c5)`:
`c0` = originX (left), `c1` = pixelWidth (dx), `c3` = originY (top),
`c5` = pixelHeight (dy); `c2`, `c4` are rotation terms the code never reads. -/
structure GeoTransform where
  c0 : ℚ
  c1 : ℚ
  c2 : ℚ
  c3 : ℚ
  c4 : ℚ
  c5 : ℚ
deriving DecidableEq

/-- Python `int()` applied to a rational: truncation toward zero. -/
def truncToZero (q : ℚ) : ℤ :=
  if q < 0 then -⌊-q⌋ else ⌊q⌋

/-- `px2coords` from `InsarFormatting.py` (lines 24-29):
`xcoord = left + px*dx`, `ycoord = top + py*dy`. -/
def px2coords (tnsf : GeoTransform) (px py : ℚ) : ℚ × ℚ :=
  let left := tnsf.c0; let dx := tnsf.c1
  let top := tnsf.c3; let dy := tnsf.c5
  (left + px * dx, top + py * dy)

/-- Error raised by the inverse mapping when a pixel step is zero
(the Python code would raise `ZeroDivisionError`; the spec names this
`InvalidTransformError`). -/
inductive InvalidTransformError where
  | zeroStep
deriving DecidableEq

/-- `coords2px` from `InsarFormatting.py` (lines 32-37):
`px = int((lon-left)/dx)`, `py = int((top-lat)/dy)`; division by a zero
step fails. -/
def coords2px (tnsf : GeoTransform) (lon lat : ℚ) :
    Except InvalidTransformError (ℤ × ℤ) :=
  let left := tnsf.c0; let dx := tnsf.c1
  let top := tnsf.c3; let dy := tnsf.c5
  if dx = 0 ∨ dy = 0 then .error .zeroStep
  else .ok (truncToZero ((lon - left) / dx), truncToZero ((top - lat) / dy))

/-- `transform2extent` from `InsarFormatting.py` (lines 42-46):
returns `(left, right, bottom, top)` with `right = left + dx*N`,
`bottom = top + dy*M`, without any normalization. -/
def transform2extent (tnsf : GeoTransform) (M N : ℚ) : ℚ × ℚ × ℚ × ℚ :=
  let left := tnsf.c0; let dx := tnsf.c1; let right := left + dx * N
  let top := tnsf.c3; let dy := tnsf.c5; let bottom := top + dy * M
  (left, right, bottom, top)

/-- The fields computed by `GDALtransform.__init__` in `InsarFormatting.py`
(lines 57-70) from a transform and a raster shape `(m, n)`. -/
structure GDALtransform where
  m : ℕ
  n : ℕ
  xstart : ℚ
  ystart : ℚ
  ystep : ℚ
  xstep : ℚ
  xend : ℚ
  yend : ℚ
  ymin : ℚ
  ymax : ℚ
  xmin : ℚ
  xmax : ℚ
  extent : List ℚ
  bounds : List ℚ
deriving DecidableEq

/-- `GDALtransform.__init__` for an already-decoded transform+shape pair:
`xend = xstart + n*xstep`, `yend = ystart + m*ystep`, then min/max
normalization and `extent = [xmin, xmax, ymin, ymax]`. -/
def GDALtransform.ofTransformShape (t : GeoTransform) (shape : ℕ × ℕ) :
    GDALtransform :=
  let m := shape.1
  let n := shape.2
  let xstart := t.c0
  let ystart := t.c3
  let ystep := t.c5
  let xstep := t.c1
  let xend := xstart + (n : ℚ) * xstep
  let yend := ystart + (m : ℚ) * ystep
  let ymin := min yend ystart
  let ymax := max yend ystart
  let xmin := min xend xstart
  let xmax := max xend xstart
  ⟨m, n, xstart, ystart, ystep, xstep, xend, yend, ymin, ymax, xmin, xmax,
    [xmin, xmax, ymin, ymax], [xmin, ymin, xmax, ymax]⟩

/-! ## The `MapShow.py` image statistics pipeline -/

/-- The `--background` command-line option: the sentinel string `auto`
or a literal numeric value. -/
inductive Background where
  | auto
  | lit (v : ℚ)
deriving DecidableEq

/-- The options of `MapShow.py` that feed the statistics pipeline, with the
parser's defaults (`vmin`/`vmax`/`background` default `None`, `pctmin = 0`,
`pctmax = 100`, `nbins = 50`). -/
structure Opts where
  vmin : Option ℚ := none
  vmax : Option ℚ := none
  pctmin : ℚ := 0
  pctmax : ℚ := 100
  background : Option Background := none
  nbins : ℕ := 50
deriving DecidableEq

/-- A raster sample as read by GDAL: a real value, a single-precision
complex (`np.complex64`) or a double-precision complex (`np.complex128`),
with exact rational components. -/
inductive NumVal where
  | real (v : ℚ)
  | c64 (re im : ℚ)
  | c128 (re im : ℚ)
deriving DecidableEq

/-- Real part of a sample. -/
def NumVal.re : NumVal → ℚ
  | .real v => v
  | .c64 r _ => r
  | .c128 r _ => r

/-- Imaginary part of a sample (0 for real samples). -/
def NumVal.im : NumVal → ℚ
  | .real _ => 0
  | .c64 _ i => i
  | .c128 _ i => i

/-- `isinstance(x, np.complex64)`: true only for single-precision complex. -/
def isComplex64 : NumVal → Bool
  | .c64 _ _ => true
  | _ => false

/-- `img[0,0]`, the sample the script's type test inspects. -/
def firstSample (img : List (List NumVal)) : NumVal :=
  (img.headD []).headD (.real 0)

/-- `MapShow.py` lines 77-80: if `img[0,0]` is an `np.complex64`, replace
the working array with `np.angle(img)` and keep `np.abs(img)` separately;
otherwise leave the array untouched and produce no magnitude.  The
`np.angle`/`np.abs` library functions are parameters of the embedding. -/
def decompose (angle mag : ℚ → ℚ → ℚ) (img : List (List NumVal)) :
    List (List NumVal) × Option (List (List ℚ)) :=
  if isComplex64 (firstSample img) then
    (img.map (fun row => row.map (fun v => NumVal.real (angle v.re v.im))),
     some (img.map (fun row => row.map (fun v => mag v.re v.im))))
  else (img, none)

/-- `img.reshape(-1,1)`: the 2D array flattened in row-major order. -/
def flattenImg (img : List (List ℚ)) : List ℚ :=
  img.flatten

/-- `np.concatenate([img[0,:], img[-1,:], img[:,0], img[:,-1]])`
(`MapShow.py` line 85): first row, last row, first column, last column. -/
def edgeValues (img : List (List ℚ)) : List ℚ :=
  img.headD [] ++ img.getLastD [] ++
    img.map (fun r => r.headD 0) ++ img.map (fun r => r.getLastD 0)

/-- Number of occurrences of `x` in `l`. -/
def countOcc (x : ℚ) (l : List ℚ) : ℕ :=
  (l.filter (fun y => decide (y = x))).length

/-- `scipy.stats.mode(l).mode[0]`: the most frequent value of `l`,
the smallest one on ties. -/
def modeVal (l : List ℚ) : ℚ :=
  l.foldl
    (fun best x =>
      if countOcc best l < countOcc x l ∨
          (countOcc x l = countOcc best l ∧ x < best) then x else best)
    (l.headD 0)

/-- `MapShow.py` lines 83-89: the background variable after resolution —
the edge mode for the sentinel `auto`, the prescribed value for a literal,
`None` when no option was given. -/
def resolveBackground (bg : Option Background) (img : List (List ℚ)) :
    Option ℚ :=
  match bg with
  | some .auto => some (modeVal (edgeValues img))
  | some (.lit v) => some v
  | none => none

/-- Python truthiness of `inpt.background` (`None` and the literal `0`
are falsy; the string `auto` is truthy). -/
def bgTruthy : Option Background → Bool
  | none => false
  | some .auto => true
  | some (.lit v) => decide (v ≠ 0)

/-- Python truthiness of a `float`-or-`None` option (`None` and `0` falsy). -/
def optTruthy : Option ℚ → Bool
  | none => false
  | some v => decide (v ≠ 0)

/-- `MapShow.py` lines 91-93 and 104-109: the statistics population after
background masking — when `if inpt.background:` is truthy, the flattened
array without the samples equal to the resolved background. -/
def popAfterMask (opts : Opts) (img : List (List ℚ)) : List ℚ :=
  if bgTruthy opts.background then
    (flattenImg img).filter
      (fun x => decide (x ≠ (resolveBackground opts.background img).getD 0))
  else flattenImg img

/-- `MapShow.py` lines 112-115: drop samples below `vmin` when
`if inpt.vmin:` is truthy, then samples above `vmax` when `if inpt.vmax:`
is truthy. -/
def popAfterBounds (opts : Opts) (pop : List ℚ) : List ℚ :=
  let p1 := if optTruthy opts.vmin then
      pop.filter (fun x => decide (opts.vmin.getD 0 ≤ x)) else pop
  if optTruthy opts.vmax then
    p1.filter (fun x => decide (x ≤ opts.vmax.getD 0)) else p1

/-- `np.percentile(l, q)` with the default linear interpolation, on a
nonempty list: sort, take `pos = q/100 * (n-1)`, interpolate between the
neighbouring order statistics. -/
def percentileVal (l : List ℚ) (q : ℚ) : ℚ :=
  let ys := List.insertionSort (fun a b : ℚ => a ≤ b) l
  let n := ys.length
  let pos := q / 100 * ((n : ℚ) - 1)
  let i := (⌊pos⌋).toNat
  ys.getD i 0 + (pos - (i : ℚ)) * (ys.getD (i + 1) (ys.getLastD 0) - ys.getD i 0)

/-- Failure modes of the statistics pipeline.  `emptyPopulation` is the
spec's name for `np.percentile` failing on an empty array;
`invalidPercentile` for a percentile outside `[0, 100]`; `invalidBins` for
`np.histogram` with a non-positive bin count; `complexData` for the
unsupported path where complex samples reach the statistics stages. -/
inductive PipelineError where
  | emptyPopulation
  | invalidPercentile
  | invalidBins
  | complexData
deriving DecidableEq

/-- `np.percentile` as called on line 118: validates the percentile, fails
on an empty population, otherwise interpolates. -/
def percentile (l : List ℚ) (q : ℚ) : Except PipelineError ℚ :=
  if q < 0 ∨ 100 < q then .error .invalidPercentile
  else if l = [] then .error .emptyPopulation
  else .ok (percentileVal l q)

/-- The pair `(Hedges, Hvals)` of `np.histogram`. -/
structure Histogram where
  edges : List ℚ
  counts : List ℕ
deriving DecidableEq

/-- `np.histogram`'s bin range: `(0, 1)` for an empty array, otherwise
`(min, max)`, expanded by one half on each side when they coincide. -/
def histRange (l : List ℚ) : ℚ × ℚ :=
  match l with
  | [] => (0, 1)
  | x :: xs =>
    let lo := xs.foldl min x
    let hi := xs.foldl max x
    if lo = hi then (lo - 1/2, hi + 1/2) else (lo, hi)

/-- The `i`-th of the `nbins + 1` equally spaced bin edges over `[lo, hi]`. -/
def histEdge (lo hi : ℚ) (nbins i : ℕ) : ℚ :=
  lo + (i : ℚ) * (hi - lo) / (nbins : ℚ)

/-- The full edge list of `np.histogram`. -/
def histEdges (lo hi : ℚ) (nbins : ℕ) : List ℚ :=
  (List.range (nbins + 1)).map (histEdge lo hi nbins)

/-- Membership of `x` in bin `i`: half-open `[e_i, e_{i+1})` except for
the last bin, which is closed. -/
def binPred (lo hi : ℚ) (nbins i : ℕ) (x : ℚ) : Bool :=
  decide (histEdge lo hi nbins i ≤ x) &&
    (if i + 1 = nbins then decide (x ≤ histEdge lo hi nbins nbins)
     else decide (x < histEdge lo hi nbins (i + 1)))

/-- The per-bin counts of `np.histogram`. -/
def histCounts (l : List ℚ) (lo hi : ℚ) (nbins : ℕ) : List ℕ :=
  (List.range nbins).map (fun i => (l.filter (binPred lo hi nbins i)).length)

/-- `np.histogram(l, bins=nbins)` (`MapShow.py` line 123). -/
def histogram (l : List ℚ) (nbins : ℕ) : Except PipelineError Histogram :=
  if nbins = 0 then .error .invalidBins
  else
    let r := histRange l
    .ok ⟨histEdges r.1 r.2 nbins, histCounts l r.1 r.2 nbins⟩

/-- `Hcntrs=(Hedges[:-1]+Hedges[1:])/2` (`MapShow.py` line 124). -/
def binCenters (edges : List ℚ) : List ℚ :=
  List.zipWith (fun a b => (a + b) / 2) edges edges.tail

/-- The observable outputs of the statistics part of `MapShow.py`:
the population surviving masking and absolute bounds, the percentile
display range, the re-filtered final population, the histogram and the
bin centers. -/
structure PipelineResult where
  pop : List ℚ
  vmin : ℚ
  vmax : ℚ
  finalPop : List ℚ
  hist : Histogram
  centers : List ℚ
deriving DecidableEq

/-- `MapShow.py` lines 83-124 on a real-valued working array: background
masking, absolute-bound filtering, percentile display range, re-filtering
to `[vmin, vmax]`, histogram and bin centers. -/
def runPipeline (opts : Opts) (img : List (List ℚ)) :
    Except PipelineError PipelineResult :=
  let pop := popAfterBounds opts (popAfterMask opts img)
  match percentile pop opts.pctmin with
  | .error e => .error e
  | .ok vmin =>
    match percentile pop opts.pctmax with
    | .error e => .error e
    | .ok vmax =>
      let fp := (pop.filter (fun x => decide (vmin ≤ x))).filter
        (fun x => decide (x ≤ vmax))
      match histogram fp opts.nbins with
      | .ok h => .ok ⟨pop, vmin, vmax, fp, h, binCenters h.edges⟩
      | .error e => .error e

/-- A sample viewed as a real number, when it is one. -/
def asReal : NumVal → Option ℚ
  | .real v => some v
  | _ => none

/-- A row viewed as real-valued, when every sample is real. -/
def rowReal : List NumVal → Option (List ℚ)
  | [] => some []
  | v :: vs =>
    match asReal v, rowReal vs with
    | some x, some xs => some (x :: xs)
    | _, _ => none

/-- A whole array viewed as real-valued, when every sample is real. -/
def allReal : List (List NumVal) → Option (List (List ℚ))
  | [] => some []
  | row :: rest =>
    match rowReal row, allReal rest with
    | some r, some rs => some (r :: rs)
    | _, _ => none

/-- The `MapShow.py` flow from the loaded band to the statistics outputs:
complex decomposition (lines 77-80) followed by the statistics pipeline on
the working array, with the magnitude passed through untouched.  Complex
samples surviving decomposition have no supported statistics path. -/
def mapShowMain (angle mag : ℚ → ℚ → ℚ) (opts : Opts)
    (img : List (List NumVal)) :
    Except PipelineError (PipelineResult × Option (List (List ℚ))) :=
  let d := decompose angle mag img
  match allReal d.1 with
  | some w => (runPipeline opts w).map (fun r => (r, d.2))
  | none => .error .complexData

/-! ## Concrete inputs used by the claim theorems -/

/-- A typical north-up transform: origin (0, 0), pixel size 1 × -1. -/
def tNorthUp : GeoTransform := ⟨0, 1, 0, 0, 0, -1⟩

/-- A transform with negative pixelWidth. -/
def tNegDx : GeoTransform := ⟨0, -1, 0, 0, 0, 1⟩

/-- The 3×3 array of the masking test, background value 5. -/
def imgC4 : List (List ℚ) := [[5, 5, 5], [5, 1, 5], [5, 5, 5]]

/-- Options with a literal background of 5 and the parser defaults. -/
def optsC4 : Opts := { background := some (Background.lit 5) }

/-- Options with two histogram bins and the parser defaults. -/
def optsTwoBins : Opts := { nbins := 2 }

/-- A one-row two-sample image. -/
def imgTwo : List (List ℚ) := [[1, 2]]

/-- The pipeline outputs on `imgTwo` with `optsTwoBins`. -/
def resTwoBins : PipelineResult :=
  ⟨[1, 2], 1, 2, [1, 2], ⟨[1, 3/2, 2], [1, 1]⟩, [5/4, 7/4]⟩

/-- Options whose percentile bounds are swapped (`pctmin = 100`,
`pctmax = 0`), so the re-filtering stage empties the population. -/
def optsSwappedPct : Opts := { pctmin := 100, pctmax := 0 }

/-- A 3×3 array whose border is uniformly 9 and whose interior varies. -/
def imgBorder9 : List (List ℚ) := [[9, 9, 9], [9, 2, 9], [9, 9, 9]]

/-- A 2×2 array every sample of which equals 5. -/
def imgAll5 : List (List ℚ) := [[5, 5], [5, 5]]

/-- Options with a literal background of 5. -/
def optsBg5 : Opts := { background := some (Background.lit 5) }

/-- A concrete stand-in for `np.angle`. -/
def angleIm : ℚ → ℚ → ℚ := fun _ im => im

/-- A concrete stand-in for `np.abs`. -/
def magRe : ℚ → ℚ → ℚ := fun re _ => re

/-- A 1×1 double-precision complex array. -/
def imgC128 : List (List NumVal) := [[NumVal.c128 0 1]]

/-- A 1×2 single-precision complex array. -/
def imgC64 : List (List NumVal) := [[NumVal.c64 3 4, NumVal.c64 0 1]]

end Insar

deriving instance DecidableEq for Except

namespace Insar

/-! ## Helper lemmas -/

theorem foldl_keep {α : Type} (f : α → α → α) (c : α) :
    ∀ l : List α, (∀ x ∈ l, f c x = c) → l.foldl f c = c
  | [], _ => rfl
  | x :: xs, h => by
    have hx : f c x = c := h x (by simp)
    simp only [List.foldl_cons, hx]
    exact foldl_keep f c xs (fun y hy => h y (by simp [hy]))

theorem modeVal_const (l : List ℚ) (c : ℚ) (hne : l ≠ [])
    (h : ∀ x ∈ l, x = c) : modeVal l = c := by
  have hhead : l.headD 0 = c := by
    cases l with
    | nil => exact absurd rfl hne
    | cons a t => simpa using h a (by simp)
  unfold modeVal
  rw [hhead]
  refine foldl_keep _ c l (fun x hx => ?_)
  rw [h x hx]
  simp

theorem getLastD_ne_nil (l : List ℚ) (d1 d2 : ℚ) (h : l ≠ []) :
    l.getLastD d1 = l.getLastD d2 := by
  cases l with
  | nil => exact absurd rfl h
  | cons b t => rw [List.getLastD_cons, List.getLastD_cons]

theorem getLastD_mem : ∀ (l : List ℚ) (d : ℚ), l ≠ [] → l.getLastD d ∈ l
  | [a], d, _ => by simp
  | a :: b :: t, d, _ => by
    rw [List.getLastD_cons]
    exact List.mem_cons_of_mem a (getLastD_mem (b :: t) a (by simp))

theorem sorted_headD_le (ys : List ℚ) (hs : ys.Sorted (· ≤ ·)) :
    ∀ x ∈ ys, ys.headD 0 ≤ x := by
  cases ys with
  | nil => intro x hx; simp at hx
  | cons a t =>
    intro x hx
    rcases List.mem_cons.mp hx with rfl | hx'
    · simp
    · simpa using List.rel_of_sorted_cons hs x hx'

theorem sorted_le_getLastD (ys : List ℚ) (hs : ys.Sorted (· ≤ ·)) :
    ∀ x ∈ ys, x ≤ ys.getLastD 0 := by
  induction ys with
  | nil => intro x hx; simp at hx
  | cons a t ih =>
    intro x hx
    cases t with
    | nil => simp at hx; simp [hx]
    | cons b t' =>
      rw [List.getLastD_cons,
        getLastD_ne_nil (b :: t') a 0 (by simp)]
      rcases List.mem_cons.mp hx with rfl | hx'
      · exact List.rel_of_sorted_cons hs _ (getLastD_mem (b :: t') 0 (by simp))
      · exact ih (List.Sorted.of_cons hs) x hx'

theorem getD_zero_headD (l : List ℚ) : l.getD 0 0 = l.headD 0 := by
  cases l <;> rfl

theorem getD_length_sub_one : ∀ l : List ℚ, l ≠ [] →
    l.getD (l.length - 1) 0 = l.getLastD 0
  | [a], _ => rfl
  | a :: b :: t, _ => by
    have ih := getD_length_sub_one (b :: t) (by simp)
    have hlen : (a :: b :: t).length - 1 = (b :: t).length - 1 + 1 := by
      simp
    rw [hlen, List.getD_cons_succ, ih,
      getLastD_ne_nil (b :: t) 0 a (by simp), ← List.getLastD_cons]

theorem percentileVal_zero (l : List ℚ) :
    percentileVal l 0 = (List.insertionSort (fun a b : ℚ => a ≤ b) l).headD 0 := by
  unfold percentileVal
  simp only [zero_div, zero_mul, Int.floor_zero, Int.toNat_zero, Nat.cast_zero,
    sub_self, add_zero]
  exact getD_zero_headD _

theorem percentileVal_hundred (l : List ℚ) (h : l ≠ []) :
    percentileVal l 100 =
      (List.insertionSort (fun a b : ℚ => a ≤ b) l).getLastD 0 := by
  have hys : (List.insertionSort (fun a b : ℚ => a ≤ b) l) ≠ [] := by
    intro hnil
    have := List.length_insertionSort (fun a b : ℚ => a ≤ b) l
    rw [hnil] at this
    exact h (List.eq_nil_of_length_eq_zero this.symm)
  unfold percentileVal
  set ys := List.insertionSort (fun a b : ℚ => a ≤ b) l with hysdef
  have hn : 1 ≤ ys.length := List.length_pos.mpr hys
  have hpos : (100 : ℚ) / 100 * ((ys.length : ℚ) - 1) =
      ((ys.length - 1 : ℕ) : ℚ) := by
    push_cast [hn]
    ring
  dsimp only
  rw [hpos, Int.floor_natCast, Int.toNat_natCast, sub_self, zero_mul, add_zero]
  exact getD_length_sub_one ys hys

theorem percentileVal_zero_le (l : List ℚ) (x : ℚ) (hx : x ∈ l) :
    percentileVal l 0 ≤ x := by
  rw [percentileVal_zero]
  exact sorted_headD_le _ (List.sorted_insertionSort _ l) x
    ((List.mem_insertionSort _).mpr hx)

theorem percentileVal_le_hundred (l : List ℚ) (h : l ≠ []) (x : ℚ) (hx : x ∈ l) :
    x ≤ percentileVal l 100 := by
  rw [percentileVal_hundred l h]
  exact sorted_le_getLastD _ (List.sorted_insertionSort _ l) x
    ((List.mem_insertionSort _).mpr hx)

theorem refilter_eq_self (pop : List ℚ) (h : pop ≠ []) :
    (pop.filter (fun x => decide (percentileVal pop 0 ≤ x))).filter
      (fun x => decide (x ≤ percentileVal pop 100)) = pop := by
  have h1 : pop.filter (fun x => decide (percentileVal pop 0 ≤ x)) = pop :=
    List.filter_eq_self.mpr
      (fun a ha => decide_eq_true (percentileVal_zero_le pop a ha))
  rw [h1]
  exact List.filter_eq_self.mpr
    (fun a ha => decide_eq_true (percentileVal_le_hundred pop h a ha))

theorem length_filter_split (p q r : ℚ → Bool)
    (hpq : ∀ x : ℚ, p x = (q x || r x))
    (hd : ∀ x : ℚ, ¬(q x = true ∧ r x = true)) :
    ∀ l : List ℚ,
      (l.filter p).length = (l.filter q).length + (l.filter r).length
  | [] => rfl
  | x :: xs => by
    have ih := length_filter_split p q r hpq hd xs
    have hp := hpq x
    cases hq : q x with
    | true =>
      have hr : r x = false := by
        cases hrv : r x
        · rfl
        · exact absurd ⟨hq, hrv⟩ (hd x)
      rw [hq, hr] at hp
      have hpt : p x = true := by rw [hp]; rfl
      simp [List.filter_cons, hpt, hq, hr, ih]
      omega
    | false =>
      cases hr : r x with
      | true =>
        rw [hq, hr] at hp
        have hpt : p x = true := by rw [hp]; rfl
        simp [List.filter_cons, hpt, hq, hr, ih]
        omega
      | false =>
        rw [hq, hr] at hp
        have hpf : p x = false := by rw [hp]; rfl
        simp [List.filter_cons, hpf, hq, hr, ih]

theorem bin_split_iff (a b c x : ℚ) (hab : a ≤ b) (hbc : b ≤ c) :
    (a ≤ x ∧ x < c) ↔ ((a ≤ x ∧ x < b) ∨ (b ≤ x ∧ x < c)) := by
  constructor
  · rintro ⟨h1, h2⟩
    rcases lt_or_le x b with hb | hb
    · exact Or.inl ⟨h1, hb⟩
    · exact Or.inr ⟨hb, h2⟩
  · rintro (⟨h1, h2⟩ | ⟨h1, h2⟩)
    · exact ⟨h1, lt_of_lt_of_le h2 hbc⟩
    · exact ⟨le_trans hab h1, h2⟩

theorem bin_splitD (p q r : ℚ → Bool) (l : List ℚ) (a b c : ℚ)
    (hab : a ≤ b) (hbc : b ≤ c)
    (hp : ∀ x, p x = (decide (a ≤ x) && decide (x < c)))
    (hq : ∀ x, q x = (decide (a ≤ x) && decide (x < b)))
    (hr : ∀ x, r x = (decide (b ≤ x) && decide (x < c))) :
    (l.filter p).length = (l.filter q).length + (l.filter r).length := by
  refine length_filter_split p q r (fun x => ?_) (fun x => ?_) l
  · rw [hp, hq, hr, ← Bool.decide_and, ← Bool.decide_and, ← Bool.decide_and,
      ← Bool.decide_or, decide_eq_decide]
    exact bin_split_iff a b c x hab hbc
  · rw [hq, hr]
    simp only [Bool.and_eq_true, decide_eq_true_eq]
    rintro ⟨⟨_, h2⟩, ⟨h3, _⟩⟩
    exact absurd h3 (not_le.mpr h2)

theorem foldl_min_le (xs : List ℚ) :
    ∀ a : ℚ, xs.foldl min a ≤ a ∧ ∀ x ∈ xs, xs.foldl min a ≤ x := by
  induction xs with
  | nil => intro a; exact ⟨le_refl a, by simp⟩
  | cons b t ih =>
    intro a
    have h := ih (min a b)
    refine ⟨le_trans h.1 (min_le_left a b), ?_⟩
    intro x hx
    rcases List.mem_cons.mp hx with rfl | hx'
    · exact le_trans h.1 (min_le_right a x)
    · exact h.2 x hx'

theorem le_foldl_max (xs : List ℚ) :
    ∀ a : ℚ, a ≤ xs.foldl max a ∧ ∀ x ∈ xs, x ≤ xs.foldl max a := by
  induction xs with
  | nil => intro a; exact ⟨le_refl a, by simp⟩
  | cons b t ih =>
    intro a
    have h := ih (max a b)
    refine ⟨le_trans (le_max_left a b) h.1, ?_⟩
    intro x hx
    rcases List.mem_cons.mp hx with rfl | hx'
    · exact le_trans (le_max_right a x) h.1
    · exact h.2 x hx'

theorem histRange_lt (l : List ℚ) : (histRange l).1 < (histRange l).2 := by
  cases l with
  | nil => norm_num [histRange]
  | cons x xs =>
    by_cases h : xs.foldl min x = xs.foldl max x
    · simp only [histRange, h, if_true]
      linarith
    · simp only [histRange, h, if_false]
      have h1 := (foldl_min_le xs x).1
      have h2 := (le_foldl_max xs x).1
      exact lt_of_le_of_ne (le_trans h1 h2) h

theorem histRange_bounds (l : List ℚ) :
    ∀ x ∈ l, (histRange l).1 ≤ x ∧ x ≤ (histRange l).2 := by
  cases l with
  | nil => intro x hx; simp at hx
  | cons a xs =>
    intro x hx
    have hmin : xs.foldl min a ≤ x := by
      rcases List.mem_cons.mp hx with rfl | hx'
      · exact (foldl_min_le xs x).1
      · exact (foldl_min_le xs a).2 x hx'
    have hmax : x ≤ xs.foldl max a := by
      rcases List.mem_cons.mp hx with rfl | hx'
      · exact (le_foldl_max xs x).1
      · exact (le_foldl_max xs a).2 x hx'
    by_cases h : xs.foldl min a = xs.foldl max a
    · simp only [histRange, h, if_true]
      constructor <;> linarith
    · simp only [histRange, h, if_false]
      exact ⟨hmin, hmax⟩

theorem histEdge_mono (lo hi : ℚ) (B : ℕ) (hle : lo ≤ hi) :
    ∀ i j : ℕ, i ≤ j → histEdge lo hi B i ≤ histEdge lo hi B j := by
  intro i j hij
  unfold histEdge
  have hstep : (0 : ℚ) ≤ (hi - lo) / (B : ℚ) := by
    apply div_nonneg (by linarith)
    exact Nat.cast_nonneg B
  have hcast : (i : ℚ) ≤ (j : ℚ) := Nat.cast_le.mpr hij
  have : (i : ℚ) * ((hi - lo) / (B : ℚ)) ≤ (j : ℚ) * ((hi - lo) / (B : ℚ)) :=
    mul_le_mul_of_nonneg_right hcast hstep
  calc lo + (i : ℚ) * (hi - lo) / (B : ℚ)
      = lo + (i : ℚ) * ((hi - lo) / (B : ℚ)) := by ring
    _ ≤ lo + (j : ℚ) * ((hi - lo) / (B : ℚ)) := by linarith
    _ = lo + (j : ℚ) * (hi - lo) / (B : ℚ) := by ring

theorem histEdge_zero (lo hi : ℚ) (B : ℕ) : histEdge lo hi B 0 = lo := by
  simp [histEdge]

theorem histEdge_last (lo hi : ℚ) (B : ℕ) (hB : B ≠ 0) :
    histEdge lo hi B B = hi := by
  unfold histEdge
  have hBQ : (B : ℚ) ≠ 0 := Nat.cast_ne_zero.mpr hB
  field_simp

theorem sum_strict_bins (l : List ℚ) (e : ℕ → ℚ)
    (mono : ∀ i j : ℕ, i ≤ j → e i ≤ e j) :
    ∀ k : ℕ,
      ((List.range k).map (fun i =>
        (l.filter (fun x => decide (e i ≤ x) && decide (x < e (i + 1)))).length)).sum
      = (l.filter (fun x => decide (e 0 ≤ x) && decide (x < e k))).length
  | 0 => by
    rw [List.range_zero, List.map_nil, List.sum_nil, eq_comm,
      List.length_eq_zero]
    refine List.filter_eq_nil_iff.mpr (fun a _ => ?_)
    simp only [Bool.and_eq_true, decide_eq_true_eq, not_and, not_lt]
    exact fun h => h
  | k + 1 => by
    rw [List.range_succ, List.map_append, List.sum_append,
      sum_strict_bins l e mono k]
    simp only [List.map_cons, List.map_nil, List.sum_cons, List.sum_nil,
      add_zero]
    rw [eq_comm]
    exact bin_splitD _ _ _ l (e 0) (e k) (e (k + 1))
      (mono 0 k (Nat.zero_le k)) (mono k (k + 1) (Nat.le_succ k))
      (fun _ => rfl) (fun _ => rfl) (fun _ => rfl)

theorem histCounts_sum (l : List ℚ) (B : ℕ) (hB : B ≠ 0) :
    (histCounts l (histRange l).1 (histRange l).2 B).sum = l.length := by
  obtain ⟨B', rfl⟩ : ∃ B', B = B' + 1 :=
    ⟨B - 1, (Nat.succ_pred_eq_of_pos (Nat.pos_of_ne_zero hB)).symm⟩
  set lo := (histRange l).1 with hlo
  set hi := (histRange l).2 with hhi
  have hlt : lo < hi := histRange_lt l
  have hbounds := histRange_bounds l
  set e : ℕ → ℚ := histEdge lo hi (B' + 1) with he
  have mono : ∀ i j : ℕ, i ≤ j → e i ≤ e j :=
    histEdge_mono lo hi (B' + 1) (le_of_lt hlt)
  unfold histCounts
  rw [List.range_succ, List.map_append, List.sum_append]
  have hstrict : ∀ i ∈ List.range B',
      (l.filter (binPred lo hi (B' + 1) i)).length =
      (l.filter (fun x => decide (e i ≤ x) && decide (x < e (i + 1)))).length := by
    intro i hi'
    have hiB : i + 1 ≠ B' + 1 := by
      have := List.mem_range.mp hi'
      omega
    congr 1
    refine List.filter_congr (fun x _ => ?_)
    unfold binPred
    rw [if_neg hiB]
  rw [List.map_congr_left hstrict, sum_strict_bins l e mono B']
  have hlast : (l.filter (binPred lo hi (B' + 1) B')).length =
      (l.filter (fun x => decide (e B' ≤ x) && decide (x ≤ e (B' + 1)))).length := by
    congr 1
    refine List.filter_congr (fun x _ => ?_)
    unfold binPred
    rw [if_pos rfl]
  simp only [List.map_cons, List.map_nil, List.sum_cons, List.sum_nil,
    add_zero, hlast]
  have hsplit : (l.filter (fun x =>
        decide (e 0 ≤ x) && decide (x ≤ e (B' + 1)))).length =
      (l.filter (fun x => decide (e 0 ≤ x) && decide (x < e B'))).length +
      (l.filter (fun x => decide (e B' ≤ x) && decide (x ≤ e (B' + 1)))).length := by
    refine length_filter_split _ _ _ (fun x => ?_) (fun x => ?_) l
    · rw [← Bool.decide_and, ← Bool.decide_and, ← Bool.decide_and,
        ← Bool.decide_or, decide_eq_decide]
      have h1 : e 0 ≤ e B' := mono 0 B' (Nat.zero_le B')
      have h2 : e B' ≤ e (B' + 1) := mono B' (B' + 1) (Nat.le_succ B')
      constructor
      · rintro ⟨hx1, hx2⟩
        rcases lt_or_le x (e B') with hb | hb
        · exact Or.inl ⟨hx1, hb⟩
        · exact Or.inr ⟨hb, hx2⟩
      · rintro (⟨hx1, hx2⟩ | ⟨hx1, hx2⟩)
        · exact ⟨hx1, le_trans (le_of_lt hx2) h2⟩
        · exact ⟨le_trans h1 hx1, hx2⟩
    · simp only [Bool.and_eq_true, decide_eq_true_eq]
      rintro ⟨⟨_, h2⟩, ⟨h3, _⟩⟩
      exact absurd h3 (not_le.mpr h2)
  rw [← hsplit]
  have hall : l.filter (fun x =>
      decide (e 0 ≤ x) && decide (x ≤ e (B' + 1))) = l := by
    refine List.filter_eq_self.mpr (fun a ha => ?_)
    have hb := hbounds a ha
    rw [Bool.and_eq_true]
    refine ⟨decide_eq_true ?_, decide_eq_true ?_⟩
    · rw [he, histEdge_zero]
      exact hb.1
    · rw [he, histEdge_last lo hi (B' + 1) (by omega)]
      exact hb.2
  rw [hall]

theorem binCenters_getD : ∀ (edges : List ℚ) (i : ℕ), i + 1 < edges.length →
    (binCenters edges).getD i 0 = (edges.getD i 0 + edges.getD (i + 1) 0) / 2
  | [], i, h => by simp at h
  | [a], i, h => by simp at h
  | a :: b :: t, 0, _ => rfl
  | a :: b :: t, i + 1, h => by
    have ih := binCenters_getD (b :: t) i (by
      simp only [List.length_cons] at h ⊢
      omega)
    simpa [binCenters] using ih

theorem binCenters_length (edges : List ℚ) :
    (binCenters edges).length = edges.length - 1 := by
  unfold binCenters
  rw [List.length_zipWith, List.length_tail]
  omega

theorem runPipeline_ok_spec (opts : Opts) (img : List (List ℚ))
    (r : PipelineResult) (h : runPipeline opts img = .ok r) :
    r.pop = popAfterBounds opts (popAfterMask opts img) ∧
    percentile r.pop opts.pctmin = .ok r.vmin ∧
    percentile r.pop opts.pctmax = .ok r.vmax ∧
    r.finalPop = (r.pop.filter (fun x => decide (r.vmin ≤ x))).filter
      (fun x => decide (x ≤ r.vmax)) ∧
    histogram r.finalPop opts.nbins = .ok r.hist ∧
    r.centers = binCenters r.hist.edges := by
  unfold runPipeline at h
  dsimp only at h
  split at h
  case _ e heq =>
    exact absurd h (by simp)
  case _ vmin heq1 =>
    split at h
    case _ e heq =>
      exact absurd h (by simp)
    case _ vmax heq2 =>
      split at h
      case _ hh hhist =>
        rw [Except.ok.injEq] at h
        subst h
        exact ⟨rfl, heq1, heq2, rfl, hhist, rfl⟩
      case _ e hhist =>
        exact absurd h (by simp)

theorem percentile_nil (q : ℚ) (h1 : 0 ≤ q) (h2 : q ≤ 100) :
    percentile [] q = .error .emptyPopulation := by
  unfold percentile
  rw [if_neg, if_pos rfl]
  push_neg
  exact ⟨h1, h2⟩

theorem runPipeline_emptyPop (opts : Opts) (img : List (List ℚ))
    (h1 : 0 ≤ opts.pctmin) (h2 : opts.pctmin ≤ 100)
    (hpop : popAfterBounds opts (popAfterMask opts img) = []) :
    runPipeline opts img = .error .emptyPopulation := by
  unfold runPipeline
  dsimp only
  rw [hpop, percentile_nil opts.pctmin h1 h2]

theorem popAfterBounds_nil (opts : Opts) : popAfterBounds opts [] = [] := by
  unfold popAfterBounds
  simp

theorem runPipeline_congr (o1 o2 : Opts) (img : List (List ℚ))
    (hpop : popAfterBounds o1 (popAfterMask o1 img) =
      popAfterBounds o2 (popAfterMask o2 img))
    (h1 : o1.pctmin = o2.pctmin) (h2 : o1.pctmax = o2.pctmax)
    (h3 : o1.nbins = o2.nbins) :
    runPipeline o1 img = runPipeline o2 img := by
  unfold runPipeline
  rw [hpop, h1, h2, h3]

theorem rowReal_map_real (f : NumVal → ℚ) :
    ∀ row : List NumVal,
      rowReal (row.map (fun v => NumVal.real (f v))) = some (row.map f)
  | [] => rfl
  | v :: vs => by
    simp only [List.map_cons, rowReal, asReal, rowReal_map_real f vs]

theorem allReal_map_real (f : NumVal → ℚ) :
    ∀ img : List (List NumVal),
      allReal (img.map (fun row => row.map (fun v => NumVal.real (f v)))) =
        some (img.map (fun row => row.map f))
  | [] => rfl
  | row :: rest => by
    simp only [List.map_cons, allReal, rowReal_map_real f row,
      allReal_map_real f rest]

theorem sum_zero_filter : ∀ l : List ℕ, l.sum = 0 →
    l.filter (fun c => decide (c ≠ 0)) = []
  | [], _ => rfl
  | a :: t, h => by
    rw [List.sum_cons] at h
    have ha : a = 0 := by omega
    have ht : t.sum = 0 := by omega
    subst ha
    simp only [List.filter_cons]
    rw [if_neg (by simp)]
    exact sum_zero_filter t ht

theorem sum_one_filter : ∀ l : List ℕ, l.sum = 1 →
    l.filter (fun c => decide (c ≠ 0)) = [1]
  | [], h => nomatch h
  | a :: t, h => by
    rw [List.sum_cons] at h
    rcases Nat.eq_zero_or_pos a with ha | ha
    · subst ha
      rw [Nat.zero_add] at h
      simp only [List.filter_cons]
      rw [if_neg (by simp)]
      exact sum_one_filter t h
    · have ha1 : a = 1 := by omega
      have ht : t.sum = 0 := by omega
      subst ha1
      simp only [List.filter_cons]
      rw [if_pos (by simp), sum_zero_filter t ht]

theorem percentile_two_zero : percentile [(1 : ℚ), 2] 0 = .ok 1 := by
  norm_num [percentile, percentileVal, List.insertionSort, List.orderedInsert]
  exact fun h => nomatch h

theorem percentile_two_hundred : percentile [(1 : ℚ), 2] 100 = .ok 2 := by
  norm_num [percentile, percentileVal, List.insertionSort, List.orderedInsert]
  exact fun h => nomatch h

theorem percentile_one_zero : percentile [(1 : ℚ)] 0 = .ok 1 := by
  norm_num [percentile, percentileVal, List.insertionSort, List.orderedInsert]

theorem percentile_one_hundred : percentile [(1 : ℚ)] 100 = .ok 1 := by
  norm_num [percentile, percentileVal, List.insertionSort, List.orderedInsert]

theorem run_twoBins : runPipeline optsTwoBins imgTwo = .ok resTwoBins := by
  norm_num [runPipeline, popAfterMask, popAfterBounds, optsTwoBins, imgTwo,
    resTwoBins, bgTruthy, optTruthy, flattenImg, percentile_two_zero,
    percentile_two_hundred, histogram, histRange, histEdges, histEdge,
    histCounts, binPred, binCenters, List.range_succ]

/-! ## Claim theorems -/

/-- C1: the claimed exact round trip on pixel centers fails in the code.
For the north-up transform (originX 0, pixelWidth 1, originY 0,
pixelHeight -1) and integer pixel indices (px, py) = (2, 3), `px2coords`
yields coordinates (2, -3), and `coords2px` maps them back to (2, -3)
rather than (2, 3): the code computes `py = int((top - lat)/dy)`, the
negation of the claimed `floor((y - originY)/pixelHeight)`. -/
theorem C1_roundtrip_fails :
    coords2px tNorthUp (px2coords tNorthUp 2 3).1 (px2coords tNorthUp 2 3).2 =
      .ok (2, -3) ∧
    coords2px tNorthUp (px2coords tNorthUp 2 3).1 (px2coords tNorthUp 2 3).2 ≠
      .ok (2, 3) := by
  constructor
  · norm_num [coords2px, px2coords, truncToZero, tNorthUp]
  · norm_num [coords2px, px2coords, truncToZero, tNorthUp]

/-- C2 counterexample: the claim fails for `transform2extent` (and the
inline extent computed the same way in `MapShow.py`), which does not
normalize: with pixelWidth = -1 and pixelHeight = 1 on a 1×1 raster the
returned extent (left, right, bottom, top) = (0, -1, 1, 0) satisfies
neither left ≤ right nor bottom ≤ top. -/
theorem C2_extent_unnormalized_cex :
    ¬ ((transform2extent tNegDx 1 1).1 ≤ (transform2extent tNegDx 1 1).2.1 ∧
       (transform2extent tNegDx 1 1).2.2.1 ≤
         (transform2extent tNegDx 1 1).2.2.2) := by
  norm_num [transform2extent, tNegDx]

/-- C2 amended: the extent computed by `GDALtransform.__init__` is
normalized — xmin ≤ xmax and ymin ≤ ymax for every transform and shape,
independent of step signs; `transform2extent` returns the raw
(left, right, bottom, top), which is ordered only for the usual sign
convention pixelWidth ≥ 0, pixelHeight ≤ 0 (and nonnegative shape). -/
theorem C2_extent_normalized :
    (∀ (t : GeoTransform) (shape : ℕ × ℕ),
      (GDALtransform.ofTransformShape t shape).xmin ≤
        (GDALtransform.ofTransformShape t shape).xmax ∧
      (GDALtransform.ofTransformShape t shape).ymin ≤
        (GDALtransform.ofTransformShape t shape).ymax) ∧
    (∀ (t : GeoTransform) (M N : ℚ), 0 ≤ t.c1 → t.c5 ≤ 0 → 0 ≤ M → 0 ≤ N →
      (transform2extent t M N).1 ≤ (transform2extent t M N).2.1 ∧
      (transform2extent t M N).2.2.1 ≤ (transform2extent t M N).2.2.2) := by
  constructor
  · intro t shape
    unfold GDALtransform.ofTransformShape
    dsimp only
    exact ⟨min_le_max, min_le_max⟩
  · intro t M N h1 h2 h3 h4
    unfold transform2extent
    dsimp only
    constructor
    · nlinarith
    · nlinarith

/-- C2 witness: the amended statement applied to the north-up transform
on a 4×3 raster. -/
theorem C2_extent_normalized_witness :
    ((GDALtransform.ofTransformShape tNorthUp (4, 3)).ymin ≤
      (GDALtransform.ofTransformShape tNorthUp (4, 3)).ymax) ∧
    ((transform2extent tNorthUp 4 3).1 ≤ (transform2extent tNorthUp 4 3).2.1 ∧
     (transform2extent tNorthUp 4 3).2.2.1 ≤
       (transform2extent tNorthUp 4 3).2.2.2) :=
  ⟨(C2_extent_normalized.1 tNorthUp (4, 3)).2,
   C2_extent_normalized.2 tNorthUp 4 3 (by decide) (by decide)
     (by norm_num) (by norm_num)⟩

/-- C9: the inverse mapping `coords2px` fails with `InvalidTransformError`
exactly when pixelWidth or pixelHeight is zero; the remaining GeoTransform
operations (`px2coords`, `transform2extent`, `GDALtransform`) are total
functions of the embedding with no error state. -/
theorem C9_inverse_error_states (t : GeoTransform) (lon lat : ℚ) :
    coords2px t lon lat = .error InvalidTransformError.zeroStep ↔
      (t.c1 = 0 ∨ t.c5 = 0) := by
  unfold coords2px
  dsimp only
  split
  next hcond => simp [hcond]
  next hcond => simp [hcond]

/-- C3: on every successful run, the percentile stage computes vmin and
vmax with `np.percentile` over exactly the population that survived
background masking and absolute-bound filtering (stages 2-4), re-filters
that population to the closed interval [vmin, vmax], and hands exactly the
re-filtered population to the histogram; with the default percentiles
pctmin = 0 and pctmax = 100 the re-filtering is a no-op. -/
theorem C3_percentile_stage :
    (∀ (opts : Opts) (img : List (List ℚ)) (r : PipelineResult),
      runPipeline opts img = .ok r →
      r.pop = popAfterBounds opts (popAfterMask opts img) ∧
      percentile r.pop opts.pctmin = .ok r.vmin ∧
      percentile r.pop opts.pctmax = .ok r.vmax ∧
      r.finalPop = (r.pop.filter (fun x => decide (r.vmin ≤ x))).filter
        (fun x => decide (x ≤ r.vmax)) ∧
      histogram r.finalPop opts.nbins = .ok r.hist) ∧
    (∀ (opts : Opts) (img : List (List ℚ)) (r : PipelineResult),
      opts.pctmin = 0 → opts.pctmax = 100 →
      runPipeline opts img = .ok r → r.finalPop = r.pop) := by
  constructor
  · intro opts img r h
    obtain ⟨h1, h2, h3, h4, h5, -⟩ := runPipeline_ok_spec opts img r h
    exact ⟨h1, h2, h3, h4, h5⟩
  · intro opts img r hpm hpM h
    obtain ⟨-, h2, h3, h4, -, -⟩ := runPipeline_ok_spec opts img r h
    rw [hpm] at h2
    rw [hpM] at h3
    have hne : r.pop ≠ [] := by
      intro hnil
      rw [hnil, percentile_nil 0 (by norm_num) (by norm_num)] at h2
      exact nomatch h2
    have hv0 : r.vmin = percentileVal r.pop 0 := by
      unfold percentile at h2
      rw [if_neg (by norm_num), if_neg hne] at h2
      exact ((Except.ok.injEq _ _).mp h2).symm
    have hv100 : r.vmax = percentileVal r.pop 100 := by
      unfold percentile at h3
      rw [if_neg (by norm_num), if_neg hne] at h3
      exact ((Except.ok.injEq _ _).mp h3).symm
    rw [h4, hv0, hv100]
    exact refilter_eq_self r.pop hne

/-- C3 witness: the structural part and the no-op part instantiated on the
run with two samples and two bins. -/
theorem C3_percentile_stage_witness :
    percentile resTwoBins.pop optsTwoBins.pctmin = .ok resTwoBins.vmin ∧
    resTwoBins.finalPop = resTwoBins.pop :=
  ⟨(C3_percentile_stage.1 optsTwoBins imgTwo resTwoBins run_twoBins).2.1,
   C3_percentile_stage.2 optsTwoBins imgTwo resTwoBins rfl rfl run_twoBins⟩

/-- C4: for the array [[5,5,5],[5,1,5],[5,5,5]] with literal background 5,
the statistics population after masking is exactly [1], the display range
is vmin = vmax = 1, and the 50-bin histogram has total mass 1, all of it
in a single bin. -/
theorem C4_masking_stats :
    popAfterMask optsC4 imgC4 = [1] ∧
    ∃ r : PipelineResult, runPipeline optsC4 imgC4 = .ok r ∧
      r.pop = [1] ∧ r.vmin = 1 ∧ r.vmax = 1 ∧
      r.hist.counts.sum = 1 ∧
      r.hist.counts.filter (fun c => decide (c ≠ 0)) = [1] := by
  have hmask : popAfterMask optsC4 imgC4 = [1] := by
    norm_num [popAfterMask, optsC4, imgC4, bgTruthy, resolveBackground,
      flattenImg]
  have hr : histRange [(1 : ℚ)] = (1/2, 3/2) := by
    norm_num [histRange]
  have hhist : histogram [(1 : ℚ)] 50 =
      .ok ⟨histEdges (1/2) (3/2) 50, histCounts [1] (1/2) (3/2) 50⟩ := by
    norm_num [histogram, hr]
  have hpop : popAfterBounds optsC4 (popAfterMask optsC4 imgC4) = [1] := by
    rw [hmask]
    norm_num [popAfterBounds, optsC4, optTruthy]
  have hrun : runPipeline optsC4 imgC4 =
      .ok ⟨[1], 1, 1, [1],
        ⟨histEdges (1/2) (3/2) 50, histCounts [1] (1/2) (3/2) 50⟩,
        binCenters (histEdges (1/2) (3/2) 50)⟩ := by
    unfold runPipeline
    dsimp only
    rw [hpop]
    norm_num [optsC4, percentile_one_zero, percentile_one_hundred, hhist]
  have hsum : (histCounts [(1 : ℚ)] (1/2) (3/2) 50).sum = 1 := by
    have h := histCounts_sum [(1 : ℚ)] 50 (by norm_num)
    rw [hr] at h
    simpa using h
  exact ⟨hmask, ⟨_, hrun, rfl, rfl, rfl, hsum, sum_one_filter _ hsum⟩⟩

/-- C5: with the background option set to the sentinel auto, the resolved
background value is the mode of the four edge rows/columns of the array;
in particular, for any nonempty array whose border pixels all equal 9
(first row, last row, first and last entry of every row) the resolved
background is 9. -/
theorem C5_auto_background (img : List (List ℚ)) (h0 : img ≠ [])
    (hrows : ∀ row ∈ img, row ≠ [])
    (hfirst : ∀ v ∈ img.headD [], v = 9)
    (hlast : ∀ v ∈ img.getLastD [], v = 9)
    (hcols : ∀ row ∈ img, row.headD 0 = 9 ∧ row.getLastD 0 = 9) :
    resolveBackground (some Background.auto) img = some 9 := by
  have hedge : ∀ v ∈ edgeValues img, v = 9 := by
    intro v hv
    unfold edgeValues at hv
    rcases List.mem_append.mp hv with hv3 | hvd
    · rcases List.mem_append.mp hv3 with hv2 | hvc
      · rcases List.mem_append.mp hv2 with hva | hvb
        · exact hfirst v hva
        · exact hlast v hvb
      · obtain ⟨row, hrow, hveq⟩ := List.mem_map.mp hvc
        rw [← hveq]
        exact (hcols row hrow).1
    · obtain ⟨row, hrow, hveq⟩ := List.mem_map.mp hvd
      rw [← hveq]
      exact (hcols row hrow).2
  have hne : edgeValues img ≠ [] := by
    unfold edgeValues
    cases img with
    | nil => exact absurd rfl h0
    | cons a t =>
      have ha : a ≠ [] := hrows a (by simp)
      rw [List.headD_cons]
      intro hcontra
      exact ha
        (List.append_eq_nil.mp
          (List.append_eq_nil.mp (List.append_eq_nil.mp hcontra).1).1).1
  unfold resolveBackground
  rw [modeVal_const (edgeValues img) 9 hne hedge]

/-- C5 witness: the 3×3 array with border 9 and interior 2. -/
theorem C5_auto_background_witness :
    resolveBackground (some Background.auto) imgBorder9 = some 9 :=
  C5_auto_background imgBorder9 (by simp [imgBorder9]) (by decide)
    (by decide) (by decide) (by decide)

/-- C6: on every run that reaches the histogram, the bin counts sum to the
size of the final population, there is one more bin edge than bin count,
and every bin center is the midpoint of its adjacent pair of edges. -/
theorem C6_histogram_invariants (opts : Opts) (img : List (List ℚ))
    (r : PipelineResult) (h : runPipeline opts img = .ok r) :
    r.hist.counts.sum = r.finalPop.length ∧
    r.hist.edges.length = r.hist.counts.length + 1 ∧
    ∀ i, i < r.hist.counts.length →
      r.centers.getD i 0 =
        (r.hist.edges.getD i 0 + r.hist.edges.getD (i + 1) 0) / 2 := by
  obtain ⟨-, -, -, -, hhist, hcent⟩ := runPipeline_ok_spec opts img r h
  unfold histogram at hhist
  by_cases hB : opts.nbins = 0
  · rw [if_pos hB] at hhist
    exact nomatch hhist
  · rw [if_neg hB] at hhist
    dsimp only at hhist
    have hh := (Except.ok.injEq _ _).mp hhist
    rw [← hh] at hcent ⊢
    dsimp only
    refine ⟨?_, ?_, ?_⟩
    · exact histCounts_sum r.finalPop opts.nbins hB
    · simp [histEdges, histCounts]
    · intro i hi
      rw [hcent]
      dsimp only
      have hlen : i + 1 < (histEdges (histRange r.finalPop).1
          (histRange r.finalPop).2 opts.nbins).length := by
        simp only [histEdges, List.length_map, List.length_range]
        simp only [histCounts, List.length_map, List.length_range] at hi
        omega
      exact binCenters_getD _ i hlen

/-- C6 witness: the invariants instantiated on the two-sample two-bin
run, with the bin-center property at both bins. -/
theorem C6_histogram_invariants_witness :
    resTwoBins.hist.counts.sum = resTwoBins.finalPop.length ∧
    resTwoBins.hist.edges.length = resTwoBins.hist.counts.length + 1 ∧
    resTwoBins.centers.getD 0 0 =
      (resTwoBins.hist.edges.getD 0 0 + resTwoBins.hist.edges.getD 1 0) / 2 ∧
    resTwoBins.centers.getD 1 0 =
      (resTwoBins.hist.edges.getD 1 0 + resTwoBins.hist.edges.getD 2 0) / 2 :=
  ⟨(C6_histogram_invariants optsTwoBins imgTwo resTwoBins run_twoBins).1,
   (C6_histogram_invariants optsTwoBins imgTwo resTwoBins run_twoBins).2.1,
   (C6_histogram_invariants optsTwoBins imgTwo resTwoBins run_twoBins).2.2 0
     (by norm_num [resTwoBins]),
   (C6_histogram_invariants optsTwoBins imgTwo resTwoBins run_twoBins).2.2 1
     (by norm_num [resTwoBins])⟩

/-- C7 counterexample: a double-precision complex (`np.complex128`) array
is NOT decomposed — the `isinstance(img[0,0], np.complex64)` test fails,
the working array keeps its complex samples and no magnitude is retained,
contradicting the claim for "every input array whose sample type is
complex". -/
theorem C7_complex128_not_decomposed_cex :
    decompose (fun _ _ => 0) (fun _ _ => 0) imgC128 = (imgC128, none) := rfl

/-- C7 amended: for every input array whose sample type is
single-precision complex (`np.complex64`), the flow replaces the working
array with its phase before any masking or statistics — the statistics
pipeline runs on the phase array — and the magnitude array is returned
unchanged alongside, never filtered. -/
theorem C7_complex64_decomposition (angle mag : ℚ → ℚ → ℚ) (opts : Opts)
    (img : List (List NumVal)) (h : isComplex64 (firstSample img) = true) :
    mapShowMain angle mag opts img =
      (runPipeline opts
        (img.map (fun row => row.map (fun v => angle v.re v.im)))).map
        (fun r =>
          (r, some (img.map (fun row => row.map (fun v => mag v.re v.im))))) := by
  unfold mapShowMain decompose
  rw [if_pos h]
  dsimp only
  rw [allReal_map_real (fun v => angle v.re v.im) img]

/-- C7 witness: the amended statement on a 1×2 complex64 array with
concrete stand-ins for `np.angle` and `np.abs`. -/
theorem C7_complex64_decomposition_witness :
    mapShowMain angleIm magRe {} imgC64 =
      (runPipeline {}
        (imgC64.map (fun row => row.map (fun v => angleIm v.re v.im)))).map
        (fun r =>
          (r, some (imgC64.map (fun row => row.map (fun v => magRe v.re v.im))))) :=
  C7_complex64_decomposition angleIm magRe {} imgC64 rfl

/-- C8 counterexample: when only the percentile re-filtering empties the
population (pctmin = 100, pctmax = 0 on the two-sample image), the
histogram is still computed — over numpy's default range (0, 1) — and the
pipeline returns successfully with an empty final population instead of
raising; so "any filtering stage" is too strong. -/
theorem C8_refilter_empty_no_error_cex :
    runPipeline optsSwappedPct imgTwo =
      .ok ⟨[1, 2], 2, 1, [],
        ⟨histEdges 0 1 50, histCounts [] 0 1 50⟩,
        binCenters (histEdges 0 1 50)⟩ ∧
    runPipeline optsSwappedPct imgTwo ≠ .error .emptyPopulation := by
  have hrun : runPipeline optsSwappedPct imgTwo =
      .ok ⟨[1, 2], 2, 1, [],
        ⟨histEdges 0 1 50, histCounts [] 0 1 50⟩,
        binCenters (histEdges 0 1 50)⟩ := by
    norm_num [runPipeline, popAfterMask, popAfterBounds, optsSwappedPct,
      imgTwo, bgTruthy, optTruthy, flattenImg, percentile_two_zero,
      percentile_two_hundred, histogram, histRange]
  refine ⟨hrun, ?_⟩
  rw [hrun]
  exact fun hcon => nomatch hcon

/-- C8 amended: whenever background masking or absolute-bound filtering
(stages 2-4) leaves the statistics population empty, the pipeline fails
with the empty-population error at the percentile computation (given
percentile options within [0, 100], as the defaults are); in particular a
truthy (nonzero) background value equal to every sample raises it.  (The
percentile re-filter emptying the population does not raise — the
histogram accepts an empty population.) -/
theorem C8_empty_population :
    (∀ (opts : Opts) (img : List (List ℚ)),
      0 ≤ opts.pctmin → opts.pctmin ≤ 100 →
      popAfterBounds opts (popAfterMask opts img) = [] →
      runPipeline opts img = .error .emptyPopulation) ∧
    (∀ (opts : Opts) (img : List (List ℚ)) (b : ℚ),
      opts.background = some (Background.lit b) → b ≠ 0 →
      0 ≤ opts.pctmin → opts.pctmin ≤ 100 →
      (∀ v ∈ flattenImg img, v = b) →
      runPipeline opts img = .error .emptyPopulation) := by
  constructor
  · intro opts img h1 h2 hpop
    exact runPipeline_emptyPop opts img h1 h2 hpop
  · intro opts img b hbg hb h1 h2 hall
    apply runPipeline_emptyPop opts img h1 h2
    have hmask : popAfterMask opts img = [] := by
      unfold popAfterMask
      rw [hbg]
      have htr : bgTruthy (some (Background.lit b)) = true := by
        simp [bgTruthy, hb]
      rw [htr, if_pos rfl]
      refine List.filter_eq_nil_iff.mpr (fun a ha => ?_)
      rw [hall a ha]
      simp [resolveBackground]
    rw [hmask, popAfterBounds_nil]

/-- C8 witness: the empty image for the first part, and the all-5 image
with literal background 5 for the second. -/
theorem C8_empty_population_witness :
    runPipeline {} ([] : List (List ℚ)) = .error .emptyPopulation ∧
    runPipeline optsBg5 imgAll5 = .error .emptyPopulation :=
  ⟨C8_empty_population.1 {} [] (by decide) (by decide) rfl,
   C8_empty_population.2 optsBg5 imgAll5 5 rfl (by decide) (by decide)
     (by decide) (by decide)⟩

/-- C10: option presence is decided by Python truthiness: a minimum bound
of exactly 0 behaves as if the option were absent, a maximum bound of 0
likewise, and a background option with the falsy literal value 0 skips
background masking entirely — the pipeline results coincide with the
option set to None. -/
theorem C10_option_truthiness (opts : Opts) (img : List (List ℚ)) :
    runPipeline { opts with vmin := some 0 } img =
      runPipeline { opts with vmin := none } img ∧
    runPipeline { opts with vmax := some 0 } img =
      runPipeline { opts with vmax := none } img ∧
    runPipeline { opts with background := some (Background.lit 0) } img =
      runPipeline { opts with background := none } img :=
  ⟨rfl, rfl, rfl⟩

end Insar
